import Mathlib

/-!
Verification development for the meetup-scraper repository.

The definitions below are a shallow embedding of the Python sources:
`modules/csv_manager.py`, `modules/calendar_generator.py`, `scraper.py`,
`reset_calendar.py`.  Python dicts keyed by `event_url` are modelled as
association lists `List (String × Event)` (insertion-ordered, unique keys),
CSV rows as a fixed `Row` structure with the `FIELDNAMES` columns, and
`datetime.strptime` date/time parsing as explicit character-list parsing
that follows CPython's `_strptime` regular expressions with calendar
validation.  Fields whose presence-vs-absence in a Python dict matters
(`date`, `status`, `calendar_exported`, `gcal_synced`) are `Option String`;
fields always accessed through `.get(k, "")` are plain `String`.
-/

/-! ### Character and string helpers (ASCII model of `str.lower`/`str.strip`) -/

/-- Numeric value of an ASCII digit character. -/
def digitVal (c : Char) : Nat := c.toNat - 48

/-- `between lo c hi` is `lo ≤ c ≤ hi` as a `Bool`. -/
def between (lo c hi : Char) : Bool := decide (lo ≤ c ∧ c ≤ hi)

/-- ASCII model of Python `str.lower` on a single character, as a code point. -/
def lowCode (c : Char) : Nat :=
  if 65 ≤ c.toNat ∧ c.toNat ≤ 90 then c.toNat + 32 else c.toNat

/-- Code points of `s.lower()` (ASCII model of Python `str.lower`). -/
def strLower (s : String) : List Nat := s.data.map lowCode

/-- Characters removed by Python `str.strip()` (ASCII whitespace). -/
def isSpaceChar (c : Char) : Bool :=
  c = ' ' || c = '\t' || c = '\n' || c = '\r' || c = '\x0b' || c = '\x0c'

/-- Model of Python `str.strip()` on a character list. -/
def trimChars (cs : List Char) : List Char :=
  ((cs.dropWhile isSpaceChar).reverse.dropWhile isSpaceChar).reverse

/-- Model of Python `str(x).lower() == "true"` for a string value `s`. -/
def isTrueStr (s : String) : Bool := strLower s = strLower "true"

/-! ### Dates: model of `datetime.strptime(s, "%Y-%m-%d")` and `date` ordering -/

/-- A calendar date as produced by `datetime.date`. -/
structure Date where
  year : Nat
  month : Nat
  day : Nat
deriving DecidableEq, Repr

/-- Python `date` comparison: lexicographic on (year, month, day). -/
def Date.ltb (a b : Date) : Bool :=
  decide (a.year < b.year ∨ (a.year = b.year ∧
    (a.month < b.month ∨ (a.month = b.month ∧ a.day < b.day))))

/-- Gregorian leap year, as in `datetime`. -/
def isLeap (y : Nat) : Bool := decide (y % 4 = 0 ∧ (y % 100 ≠ 0 ∨ y % 400 = 0))

/-- Days in a month, as validated by `datetime.date`. -/
def daysInMonth (y m : Nat) : Nat :=
  if m = 2 then (if isLeap y then 29 else 28)
  else if m = 4 ∨ m = 6 ∨ m = 9 ∨ m = 11 then 30
  else 31

/-- Validity check performed by the `datetime.date` constructor
(year 1-9999; the upper bound is enforced by the 4-digit `%Y` pattern). -/
def validYMD (y m d : Nat) : Bool :=
  decide (1 ≤ y ∧ 1 ≤ m ∧ m ≤ 12 ∧ 1 ≤ d ∧ d ≤ daysInMonth y m)

/-- CPython `_strptime` day pattern `3[01]|[12]\d|0[1-9]|[1-9]`, anchored at
end of input (any unconverted trailing data raises `ValueError`). -/
def parseDayEnd : List Char → Option Nat
  | [c1, c2] =>
    if c1 = '3' ∧ (c2 = '0' ∨ c2 = '1') then some (30 + digitVal c2)
    else if (c1 = '1' ∨ c1 = '2') ∧ c2.isDigit then some (10 * digitVal c1 + digitVal c2)
    else if c1 = '0' ∧ between '1' c2 '9' then some (digitVal c2)
    else none
  | [c1] => if between '1' c1 '9' then some (digitVal c1) else none
  | _ => none

/-- CPython `_strptime` month pattern `1[0-2]|0[1-9]|[1-9]` followed by the
literal `-` and the day (anchored); the one-digit alternative is the
regex-backtracking fallback when a two-digit month leaves no valid rest. -/
def parseMD (cs : List Char) : Option (Nat × Nat) :=
  match cs with
  | m1 :: m2 :: rest =>
    let fallback : Option (Nat × Nat) :=
      if between '1' m1 '9' then
        if m2 = '-' then (parseDayEnd rest).map (fun d => (digitVal m1, d))
        else none
      else none
    let two : Option Nat :=
      if m1 = '1' ∧ between '0' m2 '2' then some (10 + digitVal m2)
      else if m1 = '0' ∧ between '1' m2 '9' then some (digitVal m2)
      else none
    match two with
    | some m =>
      match rest with
      | '-' :: rest2 =>
        match parseDayEnd rest2 with
        | some d => some (m, d)
        | none => fallback
      | _ => fallback
    | none => fallback
  | _ => none

/-- Model of `datetime.strptime(s, "%Y-%m-%d").date()`: 4-digit year,
dash, month, dash, day (regex above), then calendar validation;
`none` models a raised `ValueError`. -/
def parseDate (s : String) : Option Date :=
  match s.data with
  | c1 :: c2 :: c3 :: c4 :: '-' :: rest =>
    if c1.isDigit ∧ c2.isDigit ∧ c3.isDigit ∧ c4.isDigit then
      match parseMD rest with
      | some (m, d) =>
        let y := digitVal c1 * 1000 + digitVal c2 * 100 + digitVal c3 * 10 + digitVal c4
        if validYMD y m d then some ⟨y, m, d⟩ else none
      | none => none
    else none
  | _ => none

/-- CPython `_strptime` minute pattern `[0-5]\d|\d`, anchored at end. -/
def parseMinEnd : List Char → Option Nat
  | [c1, c2] =>
    if between '0' c1 '5' ∧ c2.isDigit then some (10 * digitVal c1 + digitVal c2) else none
  | [c1] => if c1.isDigit then some (digitVal c1) else none
  | _ => none

/-- CPython `_strptime` hour pattern `2[0-3]|[0-1]\d|\d` followed by the
literal `:` and the minutes, anchored at end of input. -/
def parseHMEnd : List Char → Option (Nat × Nat)
  | h1 :: h2 :: rest =>
    let fallback : Option (Nat × Nat) :=
      if h1.isDigit then
        if h2 = ':' then (parseMinEnd rest).map (fun mi => (digitVal h1, mi))
        else none
      else none
    let twoH : Option Nat :=
      if h1 = '2' ∧ between '0' h2 '3' then some (20 + digitVal h2)
      else if between '0' h1 '1' ∧ h2.isDigit then some (10 * digitVal h1 + digitVal h2)
      else none
    match twoH with
    | some h =>
      match rest with
      | ':' :: rest2 =>
        match parseMinEnd rest2 with
        | some mi => some (h, mi)
        | none => fallback
      | _ => fallback
    | none => fallback
  | _ => none

/-- Day pattern followed by the literal space and `%H:%M` (for parsing
`f"{date_str} {time_str}"` with format `"%Y-%m-%d %H:%M"`). -/
def parseDaySpaceTime (cs : List Char) : Option (Nat × Nat × Nat) :=
  match cs with
  | d1 :: d2 :: rest =>
    let fallback : Option (Nat × Nat × Nat) :=
      if between '1' d1 '9' then
        if d2 = ' ' then (parseHMEnd rest).map (fun p => (digitVal d1, p.1, p.2))
        else none
      else none
    let twoD : Option Nat :=
      if d1 = '3' ∧ (d2 = '0' ∨ d2 = '1') then some (30 + digitVal d2)
      else if (d1 = '1' ∨ d1 = '2') ∧ d2.isDigit then some (10 * digitVal d1 + digitVal d2)
      else if d1 = '0' ∧ between '1' d2 '9' then some (digitVal d2)
      else none
    match twoD with
    | some d =>
      match rest with
      | ' ' :: rest2 =>
        match parseHMEnd rest2 with
        | some p => some (d, p.1, p.2)
        | none => fallback
      | _ => fallback
    | none => fallback
  | _ => none

/-- Month pattern followed by `-`, day, space, `%H:%M`. -/
def parseMDTime (cs : List Char) : Option (Nat × Nat × Nat × Nat) :=
  match cs with
  | m1 :: m2 :: rest =>
    let fallback : Option (Nat × Nat × Nat × Nat) :=
      if between '1' m1 '9' then
        if m2 = '-' then (parseDaySpaceTime rest).map (fun p => (digitVal m1, p.1, p.2.1, p.2.2))
        else none
      else none
    let two : Option Nat :=
      if m1 = '1' ∧ between '0' m2 '2' then some (10 + digitVal m2)
      else if m1 = '0' ∧ between '1' m2 '9' then some (digitVal m2)
      else none
    match two with
    | some m =>
      match rest with
      | '-' :: rest2 =>
        match parseDaySpaceTime rest2 with
        | some p => some (m, p.1, p.2.1, p.2.2)
        | none => fallback
      | _ => fallback
    | none => fallback
  | _ => none

/-- Model of `datetime.strptime(f"{dateStr} {timeStr}", "%Y-%m-%d %H:%M")`. -/
def parseDateTimeHM (dateStr timeStr : String) : Option (Date × Nat × Nat) :=
  match dateStr.data ++ ' ' :: timeStr.data with
  | c1 :: c2 :: c3 :: c4 :: '-' :: rest =>
    if c1.isDigit ∧ c2.isDigit ∧ c3.isDigit ∧ c4.isDigit then
      match parseMDTime rest with
      | some (m, d, h, mi) =>
        let y := digitVal c1 * 1000 + digitVal c2 * 100 + digitVal c3 * 10 + digitVal c4
        if validYMD y m d then some (⟨y, m, d⟩, h, mi) else none
      | none => none
    else none
  | _ => none

/-! ### The Event data model -/

/-- An event record (a Python dict in the sources).  `Option String` encodes
the difference between an absent key and a present (possibly empty) value,
which matters for `date` (sort default), `status` and the two sink flags. -/
structure Event where
  title : String := ""
  date : Option String := none
  time : String := ""
  event_url : String := ""
  description : String := ""
  venue_name : String := ""
  address : String := ""
  city : String := ""
  is_online : Bool := false
  group_name : String := ""
  group_url : String := ""
  sales_rep : String := ""
  status : Option String := none
  calendar_exported : Option String := none
  gcal_synced : Option String := none
deriving DecidableEq, Repr

/-- A persisted CSV row: exactly the `FIELDNAMES` columns of
`modules/csv_manager.py` (note: no `city`, no `gcal_synced` column). -/
structure Row where
  title : String
  date : String
  time : String
  event_url : String
  description : String
  venue_name : String
  address : String
  is_online : String
  group_name : String
  group_url : String
  sales_rep : String
  status : String
  calendar_exported : String
deriving DecidableEq, Repr

/-! ### `modules/csv_manager.py` -/

/-- Python dict insert `events[k] = v` on an insertion-ordered association
list: replaces in place when the key exists, else appends. -/
def dictInsert (l : List (String × Event)) (k : String) (v : Event) : List (String × Event) :=
  if (l.lookup k).isSome then l.map fun p => if p.1 = k then (p.1, v) else p
  else l ++ [(k, v)]

/-- One row of `load_existing_events`: every `FIELDNAMES` column is present
in the `DictReader` dict; `is_online` is converted from string to bool;
an empty `status` becomes `"UPCOMING"`; `city` and `gcal_synced` have no
column, so they load as empty/absent. -/
def eventOfRow (r : Row) : Event :=
  { title := r.title
    date := some r.date
    time := r.time
    event_url := r.event_url
    description := r.description
    venue_name := r.venue_name
    address := r.address
    city := ""
    is_online := isTrueStr r.is_online
    group_name := r.group_name
    group_url := r.group_url
    sales_rep := r.sales_rep
    status := some (if r.status = "" then "UPCOMING" else r.status)
    calendar_exported := some r.calendar_exported
    gcal_synced := none }

/-- `load_existing_events`: build the url-keyed dict, skipping rows whose
`event_url` is empty. -/
def load_existing_events (rows : List Row) : List (String × Event) :=
  rows.foldl (fun acc r => if r.event_url ≠ "" then dictInsert acc r.event_url (eventOfRow r) else acc) []

/-- The per-record body of `update_event_statuses`: empty/missing date →
`UPCOMING`; parsed date strictly before today → `DONE`, else `UPCOMING`;
unparseable date (`ValueError`) → `UPCOMING`. -/
def classifyStatus (today : Date) (e : Event) : Event :=
  let dateStr := e.date.getD ""
  if dateStr = "" then { e with status := some "UPCOMING" }
  else
    match parseDate dateStr with
    | some d =>
      if Date.ltb d today then { e with status := some "DONE" }
      else { e with status := some "UPCOMING" }
    | none => { e with status := some "UPCOMING" }

/-- `update_event_statuses` over the whole persisted dict (`today` is
`datetime.now().date()`, passed explicitly in this embedding). -/
def update_event_statuses (today : Date) (events : List (String × Event)) : List (String × Event) :=
  events.map fun p => (p.1, classifyStatus today p.2)

/-- `merge_events`: skip observations with an empty url, skip urls already
persisted, otherwise set `status = "UPCOMING"` on the observation, insert
it (dict insertion appends a fresh key at the end) and record it in the
newly-added list. -/
def merge_events : List (String × Event) → List Event → List (String × Event) × List Event
  | existing, [] => (existing, [])
  | existing, e :: rest =>
    if e.event_url = "" then merge_events existing rest
    else if (existing.lookup e.event_url).isSome then merge_events existing rest
    else
      let e' := { e with status := some "UPCOMING" }
      let r := merge_events (existing ++ [(e.event_url, e')]) rest
      (r.1, e' :: r.2)

/-- The CSV cell values written by `save_events`' `DictWriter` for one
event: only the `FIELDNAMES` columns, extras (`city`, `gcal_synced`)
silently dropped (`extrasaction="ignore"`), missing keys written as `""`
(`restval`), booleans rendered `str(bool)`-style. -/
def writeRow (e : Event) : Row :=
  { title := e.title
    date := e.date.getD ""
    time := e.time
    event_url := e.event_url
    description := e.description
    venue_name := e.venue_name
    address := e.address
    is_online := if e.is_online then "True" else "False"
    group_name := e.group_name
    group_url := e.group_url
    sales_rep := e.sales_rep
    status := e.status.getD ""
    calendar_exported := e.calendar_exported.getD "" }

/-- The sort key of `save_events`: `x.get("date", "9999-99-99")`, compared
as a Python string (code-point sequence). -/
def dateSortKey (e : Event) : List Nat := (e.date.getD "9999-99-99").data.map Char.toNat

/-- Lexicographic `≤` on code-point sequences: Python string comparison. -/
def lexLe : List Nat → List Nat → Bool
  | [], _ => true
  | _ :: _, [] => false
  | a :: as, b :: bs => if a < b then true else if a = b then lexLe as bs else false

/-- The comparison used by `event_list.sort(key=...)`. -/
def dateRel (x y : Event) : Prop := lexLe (dateSortKey x) (dateSortKey y) = true

instance : DecidableRel dateRel := fun _ _ => inferInstanceAs (Decidable (_ = true))

/-- `save_events`: no write at all for an empty set; otherwise the values
in stable ascending `date`-string order (Python `list.sort` is stable;
`List.insertionSort` is the stable sort), projected to `FIELDNAMES` rows.
`none` models "no write performed". -/
def save_events (events : List (String × Event)) : Option (List Row) :=
  if events.isEmpty then none
  else some ((List.insertionSort dateRel (events.map Prod.snd)).map writeRow)

/-- `mark_calendar_exported`: for each reported url present in the dict,
set that record's `calendar_exported` to `"True"`. -/
def mark_calendar_exported (events : List (String × Event)) (urls : List String) : List (String × Event) :=
  urls.foldl
    (fun evs url =>
      if (evs.lookup url).isSome then
        evs.map fun p => if p.1 = url then (p.1, { p.2 with calendar_exported := some "True" }) else p
      else evs)
    events

/-! ### `scraper.py` -/

/-- Loop of `deduplicate_events` with its `seen` set. -/
def dedupGo (seen : List String) : List Event → List Event
  | [] => []
  | e :: rest =>
    if e.event_url ≠ "" ∧ e.event_url ∉ seen then e :: dedupGo (e.event_url :: seen) rest
    else dedupGo seen rest

/-- `deduplicate_events`. -/
def deduplicate_events (events : List Event) : List Event := dedupGo [] events

/-- The prebuilt `territory_lookup` dict `{city.lower(): rep}` queried at a
lowercased key: the value of the last pair whose lowercased name equals the
key (later duplicate dict keys win). -/
def territoryLookup (ts : List (String × String)) (key : List Nat) : Option String :=
  ts.foldl (fun acc p => if strLower p.1 = key then some p.2 else acc) none

/-- `assign_rep_by_territory`: unchanged for an empty mapping; otherwise
online events and events with a blank (stripped) city are skipped, and a
case-insensitive city match overwrites `sales_rep`. -/
def assign_rep_by_territory (territories : List (String × String)) (events : List Event) : List Event :=
  if territories.isEmpty then events
  else
    events.map fun e =>
      if e.is_online then e
      else
        let city := trimChars e.city.data
        if city.isEmpty then e
        else
          match territoryLookup territories (city.map lowCode) with
          | some rep => if e.sales_rep ≠ rep then { e with sales_rep := rep } else e
          | none => e

/-! ### `modules/calendar_generator.py` (combined export gate) -/

/-- Eligibility filter of `generate_combined_ics`:
`e.get("status", "UPCOMING") == "UPCOMING"` and
`str(e.get("calendar_exported", "")).lower() != "true"`. -/
def eligB (e : Event) : Bool :=
  decide (e.status.getD "UPCOMING" = "UPCOMING") && !(isTrueStr (e.calendar_exported.getD ""))

/-- Whether the per-event body of `generate_combined_ics` reaches
`exported_urls.append(url)`: a present date that `strptime`-parses
(together with the time when one is present). -/
def icsOk (e : Event) : Bool :=
  let dateStr := e.date.getD ""
  if dateStr = "" then false
  else if e.time = "" then (parseDate dateStr).isSome
  else (parseDateTimeHM dateStr e.time).isSome

/-- The eligible list built by `generate_combined_ics` from the persisted
dict's values. -/
def selectEligible (events : List (String × Event)) : List Event :=
  (events.map Prod.snd).filter eligB

/-- The `exported_urls` returned by `generate_combined_ics` (in every
branch: the early-return branches return `[]`, which equals the filter). -/
def combined_ics_exported_urls (events : List (String × Event)) : List String :=
  ((selectEligible events).filter icsOk).map (·.event_url)

/-- One run of the combined calendar-file export gate as wired in
`export_calendar.py` / `scraper.py --export-calendar`:
`generate_combined_ics` followed by `mark_calendar_exported` on the
reported urls (the file write always succeeding). -/
def export_gate_run (events : List (String × Event)) : List (String × Event) :=
  mark_calendar_exported events (combined_ics_exported_urls events)

/-! ### `reset_calendar.py` -/

/-- `reset_gcal_synced`: clears (sets to `""`) the `gcal_synced` flag of
every record whose flag string lowercases to `"true"` — with no check of
`status`, despite the docstring "for all UPCOMING events". -/
def reset_gcal_synced (events : List Event) : List Event :=
  events.map fun e =>
    if isTrueStr (e.gcal_synced.getD "") then { e with gcal_synced := some "" } else e

/-! ### Spec-shaped definitions (for refinement-style claims) -/

/-- Deduplication as the spec/claim words it: one record per non-empty
`event_url`, the first occurrence, in first-seen order; identity-less
records dropped. -/
def dedupSpec : List Event → List Event
  | [] => []
  | e :: rest =>
    if e.event_url = "" then dedupSpec rest
    else e :: dedupSpec (rest.filter fun x => x.event_url ≠ e.event_url)
termination_by l => l.length
decreasing_by
  · simp
  · exact Nat.lt_succ_of_le (List.length_filter_le _ _)

/-- Territory reassignment as the claim words it, per record: online or
blank-city records untouched; otherwise a case-insensitive match of the
trimmed city against the mapping overwrites `sales_rep`. -/
def assignSpec (ts : List (String × String)) (e : Event) : Event :=
  if e.is_online then e
  else if trimChars e.city.data = [] then e
  else
    match territoryLookup ts ((trimChars e.city.data).map lowCode) with
    | some rep => { e with sales_rep := rep }
    | none => e

/-! ### Association-list (Python dict) lemmas -/

theorem lookup_cons (k a : String) (v : Event) (l : List (String × Event)) :
    List.lookup k ((a, v) :: l) = if k = a then some v else List.lookup k l := by
  by_cases h : k = a
  · simp [List.lookup, h]
  · have hb : (k == a) = false := beq_eq_false_iff_ne.mpr h
    simp [List.lookup, hb, h]

theorem lookup_append_of_some {k : String} {v : Event} {l₁ : List (String × Event)}
    (l₂ : List (String × Event)) (h : List.lookup k l₁ = some v) :
    List.lookup k (l₁ ++ l₂) = some v := by
  induction l₁ with
  | nil => simp [List.lookup] at h
  | cons p tl ih =>
    obtain ⟨a, w⟩ := p
    rw [List.cons_append, lookup_cons]
    rw [lookup_cons] at h
    by_cases hk : k = a
    · simpa [hk] using h
    · simp only [hk, if_false] at h ⊢
      exact ih h

theorem lookup_append_of_none {k : String} {l₁ : List (String × Event)}
    (l₂ : List (String × Event)) (h : List.lookup k l₁ = none) :
    List.lookup k (l₁ ++ l₂) = List.lookup k l₂ := by
  induction l₁ with
  | nil => simp
  | cons p tl ih =>
    obtain ⟨a, w⟩ := p
    rw [List.cons_append, lookup_cons]
    rw [lookup_cons] at h
    by_cases hk : k = a
    · simp [hk] at h
    · simp only [hk, if_false] at h ⊢
      exact ih h

theorem lookup_eq_none_iff {k : String} {l : List (String × Event)} :
    List.lookup k l = none ↔ ∀ p ∈ l, p.1 ≠ k := by
  induction l with
  | nil => simp [List.lookup]
  | cons p tl ih =>
    obtain ⟨a, w⟩ := p
    rw [lookup_cons]
    by_cases hk : k = a
    · subst hk
      simp
    · simp only [hk, if_false, ih, List.mem_cons]
      constructor
      · rintro h p (rfl | hp)
        · exact fun hc => hk hc.symm
        · exact h p hp
      · intro h p hp
        exact h p (Or.inr hp)

theorem count_keys_eq_zero_of_lookup_none {k : String} {l : List (String × Event)}
    (h : List.lookup k l = none) : (l.map Prod.fst).count k = 0 := by
  rw [List.count_eq_zero]
  intro hmem
  obtain ⟨p, hp, hk⟩ := List.mem_map.mp hmem
  exact (lookup_eq_none_iff.mp h p hp) hk

theorem lookup_map_snd (f : String × Event → Event) (l : List (String × Event)) (k : String) :
    List.lookup k (l.map fun p => (p.1, f p)) = (l.find? fun p => p.1 == k).map f := by
  induction l with
  | nil => simp [List.lookup]
  | cons p tl ih =>
    obtain ⟨a, w⟩ := p
    rw [List.map_cons, lookup_cons, List.find?_cons]
    by_cases hk : k = a
    · subst hk
      simp
    · have : (a == k) = false := by simp [Ne.symm hk]
      simp only [this, hk, if_false]
      exact ih

theorem find?_key_of_mem_nodup {k : String} {v : Event} {l : List (String × Event)}
    (hmem : (k, v) ∈ l) (hnd : (l.map Prod.fst).Nodup) :
    (l.find? fun p => p.1 == k) = some (k, v) := by
  induction l with
  | nil => simp at hmem
  | cons p tl ih =>
    obtain ⟨a, w⟩ := p
    rw [List.map_cons, List.nodup_cons] at hnd
    rw [List.find?_cons]
    by_cases hk : a = k
    · subst hk
      simp only [beq_self_eq_true]
      rcases List.mem_cons.mp hmem with h | h
      · simp only [Prod.mk.injEq, true_and] at h
        rw [h]
      · exact absurd (List.mem_map.mpr ⟨(a, v), h, rfl⟩) hnd.1
    · have : (a == k) = false := by simp [hk]
      simp only [this]
      rcases List.mem_cons.mp hmem with h | h
      · exact absurd (congrArg Prod.fst h).symm hk
      · exact ih h hnd.2

theorem mem_keyed_unique {k : String} {v w : Event} {l : List (String × Event)}
    (hnd : (l.map Prod.fst).Nodup) (hv : (k, v) ∈ l) (hw : (k, w) ∈ l) : v = w := by
  have h1 := find?_key_of_mem_nodup hv hnd
  have h2 := find?_key_of_mem_nodup hw hnd
  rw [h1] at h2
  exact congrArg Prod.snd (Option.some.inj h2)

/-! ### `merge_events` lemmas -/

theorem merge_events_lookup_mono :
    ∀ (new : List Event) (existing : List (String × Event)) (k : String) (v : Event),
      List.lookup k existing = some v →
      List.lookup k (merge_events existing new).1 = some v := by
  intro new
  induction new with
  | nil => intro existing k v h; simpa [merge_events] using h
  | cons e rest ih =>
    intro existing k v h
    rw [merge_events]
    by_cases h1 : e.event_url = ""
    · simpa [h1] using ih existing k v h
    · by_cases h2 : (List.lookup e.event_url existing).isSome
      · simpa [h1, h2] using ih existing k v h
      · simp only [h1, h2, if_false, if_neg]
        exact ih _ k v (lookup_append_of_some _ h)

theorem merge_events_added_props :
    ∀ (new : List Event) (existing : List (String × Event)) (e : Event),
      e ∈ (merge_events existing new).2 →
      e.event_url ≠ "" ∧ List.lookup e.event_url existing = none ∧ e.status = some "UPCOMING" := by
  intro new
  induction new with
  | nil => intro existing e h; simp [merge_events] at h
  | cons a rest ih =>
    intro existing e h
    rw [merge_events] at h
    by_cases h1 : a.event_url = ""
    · exact ih existing e (by simpa [h1] using h)
    · by_cases h2 : (List.lookup a.event_url existing).isSome
      · exact ih existing e (by simpa [h1, h2] using h)
      · simp only [h1, h2, if_false, if_neg] at h
        rcases List.mem_cons.mp h with he | h
        · rw [he]
          exact ⟨h1, Option.not_isSome_iff_eq_none.mp h2, rfl⟩
        · have h3 := ih _ e h
          refine ⟨h3.1, ?_, h3.2.2⟩
          rcases hcase : List.lookup e.event_url existing with _ | w
          · rfl
          · have := lookup_append_of_some
              [(a.event_url, { a with status := some "UPCOMING" })] hcase
            rw [this] at h3
            exact absurd h3.2.1 (by simp)

theorem merge_events_cons_skip_empty {e : Event} {rest : List Event}
    {existing : List (String × Event)} (h : e.event_url = "") :
    merge_events existing (e :: rest) = merge_events existing rest := by
  rw [merge_events, if_pos h]

theorem merge_events_cons_skip_known {e : Event} {rest : List Event}
    {existing : List (String × Event)} (h1 : e.event_url ≠ "")
    (h2 : (List.lookup e.event_url existing).isSome) :
    merge_events existing (e :: rest) = merge_events existing rest := by
  rw [merge_events, if_neg h1, if_pos h2]

theorem merge_events_cons_fresh {e : Event} {rest : List Event}
    {existing : List (String × Event)} (h1 : e.event_url ≠ "")
    (h2 : ¬ (List.lookup e.event_url existing).isSome) :
    merge_events existing (e :: rest) =
      ((merge_events (existing ++ [(e.event_url, { e with status := some "UPCOMING" })]) rest).1,
       { e with status := some "UPCOMING" } ::
         (merge_events (existing ++ [(e.event_url, { e with status := some "UPCOMING" })]) rest).2) := by
  rw [merge_events, if_neg h1, if_neg h2]

theorem merge_events_added_sublist :
    ∀ (new : List Event) (existing : List (String × Event)),
      (merge_events existing new).2.Sublist (new.map fun e => { e with status := some "UPCOMING" }) := by
  intro new
  induction new with
  | nil => intro existing; simp [merge_events]
  | cons e rest ih =>
    intro existing
    rw [List.map_cons]
    by_cases h1 : e.event_url = ""
    · rw [merge_events_cons_skip_empty h1]
      exact (ih existing).cons _
    · by_cases h2 : (List.lookup e.event_url existing).isSome
      · rw [merge_events_cons_skip_known h1 h2]
        exact (ih existing).cons _
      · rw [merge_events_cons_fresh h1 h2]
        exact (ih _).cons₂ _

theorem merge_events_keys_count_of_present :
    ∀ (new : List Event) (existing : List (String × Event)) (u : String),
      (List.lookup u existing).isSome →
      ((merge_events existing new).1.map Prod.fst).count u = (existing.map Prod.fst).count u := by
  intro new
  induction new with
  | nil => intro existing u _; simp [merge_events]
  | cons e rest ih =>
    intro existing u hu
    by_cases h1 : e.event_url = ""
    · rw [merge_events_cons_skip_empty h1]
      exact ih existing u hu
    · by_cases h2 : (List.lookup e.event_url existing).isSome
      · rw [merge_events_cons_skip_known h1 h2]
        exact ih existing u hu
      · rw [merge_events_cons_fresh h1 h2]
        have hne : e.event_url ≠ u := by
          intro hc
          rw [hc] at h2
          exact h2 hu
        obtain ⟨v, hv⟩ := Option.isSome_iff_exists.mp hu
        have hstep := ih (existing ++ [(e.event_url, { e with status := some "UPCOMING" })]) u
          (by rw [lookup_append_of_some _ hv]; rfl)
        dsimp only
        rw [hstep, List.map_append, List.count_append]
        simp [List.count_singleton', hne]

theorem merge_events_new :
    ∀ (new : List Event) (existing : List (String × Event)) (u : String) (O : Event),
      u ≠ "" → List.lookup u existing = none →
      new.find? (fun e => e.event_url == u) = some O →
      List.lookup u (merge_events existing new).1 = some { O with status := some "UPCOMING" } ∧
      (merge_events existing new).2.find? (fun e => e.event_url == u) =
        some { O with status := some "UPCOMING" } ∧
      (merge_events existing new).2.countP (fun e => e.event_url == u) = 1 ∧
      ((merge_events existing new).1.map Prod.fst).count u = (existing.map Prod.fst).count u + 1 := by
  intro new
  induction new with
  | nil => intro existing u O _ _ hf; simp at hf
  | cons e rest ih =>
    intro existing u O hu hnone hf
    by_cases hm : e.event_url = u
    · -- the head observation carries the fresh identity
      have hbeq : (e.event_url == u) = true := beq_iff_eq.mpr hm
      rw [@List.find?_cons_of_pos _ (fun x => x.event_url == u) e rest hbeq] at hf
      have hO : O = e := (Option.some.inj hf).symm
      subst hO
      -- after `subst`, the head observation is named `O` and `hm : O.event_url = u`
      have h1 : O.event_url ≠ "" := by rw [hm]; exact hu
      have h2 : ¬ (List.lookup O.event_url existing).isSome := by
        rw [hm, hnone]; simp
      rw [merge_events_cons_fresh h1 h2]
      dsimp only
      set e' : Event := { O with status := some "UPCOMING" } with he'
      set existing' := existing ++ [(O.event_url, e')] with hex
      have hlook' : List.lookup u existing' = some e' := by
        rw [hex, lookup_append_of_none _ hnone, lookup_cons, if_pos hm.symm]
      have hurl' : e'.event_url = u := by rw [he']; exact hm
      refine ⟨merge_events_lookup_mono rest existing' u e' hlook', ?_, ?_, ?_⟩
      · exact @List.find?_cons_of_pos _ (fun x => x.event_url == u) e' _ (beq_iff_eq.mpr hurl')
      · rw [List.countP_cons]
        have hzero : (merge_events existing' rest).2.countP (fun x => x.event_url == u) = 0 := by
          rw [List.countP_eq_zero]
          intro x hx
          have hprops := merge_events_added_props rest existing' x hx
          intro hxb
          have hxu : x.event_url = u := beq_iff_eq.mp hxb
          rw [hxu, hlook'] at hprops
          exact Option.noConfusion hprops.2.1
        rw [hzero]
        simp [hm]
      · have hcnt := merge_events_keys_count_of_present rest existing' u (by rw [hlook']; rfl)
        rw [hcnt, hex, List.map_append, List.count_append]
        rw [count_keys_eq_zero_of_lookup_none hnone]
        simp [List.count_singleton', hm]
    · -- the head observation has a different identity
      have hbeq : (e.event_url == u) = false := beq_eq_false_iff_ne.mpr hm
      rw [@List.find?_cons_of_neg _ (fun x => x.event_url == u) e rest (by simp [hbeq])] at hf
      by_cases h1 : e.event_url = ""
      · rw [merge_events_cons_skip_empty h1]
        exact ih existing u O hu hnone hf
      · by_cases h2 : (List.lookup e.event_url existing).isSome
        · rw [merge_events_cons_skip_known h1 h2]
          exact ih existing u O hu hnone hf
        · rw [merge_events_cons_fresh h1 h2]
          dsimp only
          set e' : Event := { e with status := some "UPCOMING" } with he'
          set existing' := existing ++ [(e.event_url, e')] with hex
          have hnone' : List.lookup u existing' = none := by
            rw [hex, lookup_append_of_none _ hnone, lookup_cons]
            rw [if_neg (fun hc => hm hc.symm)]
            rfl
          have hurl' : e'.event_url = e.event_url := by rw [he']
          have hih := ih existing' u O hu hnone' hf
          refine ⟨hih.1, ?_, ?_, ?_⟩
          · rw [@List.find?_cons_of_neg _ (fun x => x.event_url == u) e' _
              (by simp [hurl', hbeq])]
            exact hih.2.1
          · rw [List.countP_cons, hih.2.2.1]
            simp [hurl', hbeq]
          · rw [hih.2.2.2, hex, List.map_append, List.count_append]
            simp [List.count_singleton', hm]

/-! ### Claim C1 -/

/-- C1: Reconciliation non-clobbering — for every persisted dict and
observed batch, any identity already persisted keeps exactly its old
record (every field, sink flags included) in `merge_events`' output set,
and no element of the newly-added list carries that identity. -/
theorem merge_preserves_persisted (existing : List (String × Event)) (new : List Event)
    (k : String) (P : Event) (h : List.lookup k existing = some P) :
    List.lookup k (merge_events existing new).1 = some P ∧
    ∀ e ∈ (merge_events existing new).2, e.event_url ≠ k := by
  refine ⟨merge_events_lookup_mono new existing k P h, ?_⟩
  intro e he hk
  have h3 := merge_events_added_props new existing e he
  rw [hk] at h3
  rw [h3.2.1] at h
  exact Option.noConfusion h

/-- A persisted record with both sink flags set, used to witness C1. -/
def c1P : Event :=
  { event_url := "u", title := "kept", date := some "2099-01-01",
    status := some "UPCOMING", calendar_exported := some "True", gcal_synced := some "True" }

/-- An observation of the same identity with different fields, for C1. -/
def c1O : Event := { event_url := "u", title := "scraped-later", date := some "2099-02-02" }

theorem merge_preserves_persisted_witness :
    List.lookup "u" [("u", c1P)] = some c1P ∧
    (List.lookup "u" (merge_events [("u", c1P)] [c1O]).1 = some c1P ∧
     ∀ e ∈ (merge_events [("u", c1P)] [c1O]).2, e.event_url ≠ "u") :=
  ⟨rfl, merge_preserves_persisted [("u", c1P)] [c1O] "u" c1P rfl⟩

/-! ### Claim C2 -/

/-- An observation that (unusually) already carries a sink flag, for the
C2 counterexample. -/
def c2O : Event := { event_url := "u", title := "obs", calendar_exported := some "True" }

/-- C2 counterexample: `merge_events` inserts a fresh observation verbatim
apart from `status`, so an observation carrying `calendar_exported =
"True"` lands in the persisted set and in the newly-added list with that
sink flag still `"True"` — not false/absent as the claim states. -/
theorem merge_new_event_flags_cex :
    (merge_events [] [c2O]).2 = [{ c2O with status := some "UPCOMING" }] ∧
    ({ c2O with status := some "UPCOMING" } : Event).calendar_exported = some "True" ∧
    List.lookup "u" (merge_events [] [c2O]).1 = some { c2O with status := some "UPCOMING" } :=
  ⟨rfl, rfl, rfl⟩

/-- C2 (amended): a fresh non-empty identity appears exactly once in the
persisted set and exactly once in the newly-added list — namely as its
first observation with `status := "UPCOMING"` and all other fields (sink
flags included) copied verbatim from that observation — and the
newly-added list is a sublist of the input batch in input order. -/
theorem merge_new_event_completeness_amended (existing : List (String × Event)) (new : List Event)
    (u : String) (O : Event) (hu : u ≠ "") (hnone : List.lookup u existing = none)
    (hfind : new.find? (fun e => e.event_url == u) = some O) :
    List.lookup u (merge_events existing new).1 = some { O with status := some "UPCOMING" } ∧
    ((merge_events existing new).1.map Prod.fst).count u = 1 ∧
    (merge_events existing new).2.countP (fun e => e.event_url == u) = 1 ∧
    (merge_events existing new).2.find? (fun e => e.event_url == u) =
      some { O with status := some "UPCOMING" } ∧
    (merge_events existing new).2.Sublist (new.map fun e => { e with status := some "UPCOMING" }) := by
  have h := merge_events_new new existing u O hu hnone hfind
  have hc := h.2.2.2
  rw [count_keys_eq_zero_of_lookup_none hnone] at hc
  exact ⟨h.1, by simpa using hc, h.2.2.1, h.2.1, merge_events_added_sublist new existing⟩

/-- A fresh scraper-produced observation (no sink flags), for the C2 witness. -/
def c2W : Event := { event_url := "n", title := "fresh", date := some "2099-03-03" }

theorem merge_new_event_completeness_amended_witness :
    ("n" : String) ≠ "" ∧
    List.lookup "n" ([] : List (String × Event)) = none ∧
    [c2W].find? (fun e => e.event_url == "n") = some c2W ∧
    (List.lookup "n" (merge_events [] [c2W]).1 = some { c2W with status := some "UPCOMING" } ∧
     ((merge_events [] [c2W]).1.map Prod.fst).count "n" = 1 ∧
     (merge_events [] [c2W]).2.countP (fun e => e.event_url == "n") = 1 ∧
     (merge_events [] [c2W]).2.find? (fun e => e.event_url == "n") =
       some { c2W with status := some "UPCOMING" } ∧
     (merge_events [] [c2W]).2.Sublist ([c2W].map fun e => { e with status := some "UPCOMING" })) :=
  ⟨by decide, rfl, rfl,
   merge_new_event_completeness_amended [] [c2W] "n" c2W (by decide) rfl rfl⟩

/-! ### Claim C5 -/

theorem classifyStatus_status (today : Date) (e : Event) :
    (classifyStatus today e).status =
      some (match parseDate (e.date.getD "") with
            | some d => if Date.ltb d today then "DONE" else "UPCOMING"
            | none => "UPCOMING") := by
  unfold classifyStatus
  by_cases hd : e.date.getD "" = ""
  · rw [if_pos hd, hd]
    rfl
  · rw [if_neg hd]
    cases hp : parseDate (e.date.getD "") with
    | none => rfl
    | some d =>
      cases hlt : Date.ltb d today <;> simp [hlt]

theorem classifyStatus_fields (today : Date) (e : Event) :
    { classifyStatus today e with status := e.status } = e := by
  unfold classifyStatus
  by_cases hd : e.date.getD "" = ""
  · rw [if_pos hd]
  · rw [if_neg hd]
    dsimp only
    split
    · split <;> rfl
    · rfl

/-- C5: Status classification — `update_event_statuses` keeps every key (it
never drops a record), and per record sets `status` to `DONE` exactly when
the `date` string parses as `%Y-%m-%d` strictly before today, and to
`UPCOMING` in every other case (equal to today, missing/empty date,
unparseable date), leaving every other field unchanged. -/
theorem update_statuses_classification (today : Date) (evs : List (String × Event)) :
    (update_event_statuses today evs).map Prod.fst = evs.map Prod.fst ∧
    ∀ p ∈ evs,
      (p.1, classifyStatus today p.2) ∈ update_event_statuses today evs ∧
      ((classifyStatus today p.2).status = some "DONE" ↔
        ∃ d, parseDate (p.2.date.getD "") = some d ∧ Date.ltb d today = true) ∧
      ((classifyStatus today p.2).status = some "DONE" ∨
        (classifyStatus today p.2).status = some "UPCOMING") ∧
      { classifyStatus today p.2 with status := p.2.status } = p.2 := by
  constructor
  · simp only [update_event_statuses, List.map_map]
    rfl
  · intro p hp
    refine ⟨?_, ?_, ?_, classifyStatus_fields today p.2⟩
    · exact List.mem_map.mpr ⟨p, hp, rfl⟩
    · rw [classifyStatus_status]
      cases hp2 : parseDate (p.2.date.getD "") with
      | none =>
        dsimp only
        constructor
        · intro h
          exact ((by decide : ¬("UPCOMING" : String) = "DONE") (Option.some.inj h)).elim
        · rintro ⟨d, hd', -⟩
          exact Option.noConfusion hd'
      | some d =>
        dsimp only
        cases hlt : Date.ltb d today
        · rw [if_neg (by simp [hlt])]
          constructor
          · intro h
            exact ((by decide : ¬("UPCOMING" : String) = "DONE") (Option.some.inj h)).elim
          · rintro ⟨d', hd', hlt'⟩
            obtain rfl := (Option.some.inj hd').symm
            rw [hlt] at hlt'
            exact Bool.noConfusion hlt'
        · simp [hlt]
    · rw [classifyStatus_status]
      cases hp2 : parseDate (p.2.date.getD "") with
      | none => exact Or.inr rfl
      | some d =>
        cases hlt : Date.ltb d today
        · exact Or.inr (by simp [hlt])
        · exact Or.inl (by simp [hlt])

/-- A record with a past date, for the C5 witness. -/
def c5E : Event := { event_url := "u", date := some "2024-01-01" }

theorem update_statuses_classification_witness :
    (("u", c5E) ∈ [("u", c5E)]) ∧
    ((("u", c5E).1, classifyStatus ⟨2024, 6, 1⟩ ("u", c5E).2) ∈
       update_event_statuses ⟨2024, 6, 1⟩ [("u", c5E)] ∧
     ((classifyStatus ⟨2024, 6, 1⟩ ("u", c5E).2).status = some "DONE" ↔
       ∃ d, parseDate (("u", c5E).2.date.getD "") = some d ∧ Date.ltb d ⟨2024, 6, 1⟩ = true) ∧
     ((classifyStatus ⟨2024, 6, 1⟩ ("u", c5E).2).status = some "DONE" ∨
       (classifyStatus ⟨2024, 6, 1⟩ ("u", c5E).2).status = some "UPCOMING") ∧
     { classifyStatus ⟨2024, 6, 1⟩ ("u", c5E).2 with status := ("u", c5E).2.status } =
       ("u", c5E).2) :=
  ⟨List.mem_singleton.mpr rfl,
   (update_statuses_classification ⟨2024, 6, 1⟩ [("u", c5E)]).2 ("u", c5E)
     (List.mem_singleton.mpr rfl)⟩

/-! ### Claim C6 -/

theorem dedupGo_eq :
    ∀ (l : List Event) (seen : List String), "" ∉ seen →
      dedupGo seen l = dedupSpec (l.filter fun e => decide (e.event_url ∉ seen)) := by
  intro l
  induction l with
  | nil => intro seen _; simp [dedupGo, dedupSpec]
  | cons e rest ih =>
    intro seen hseen
    by_cases hs : e.event_url ∈ seen
    · rw [dedupGo, if_neg (by simp [hs]), List.filter_cons, if_neg (by simp [hs])]
      exact ih seen hseen
    · by_cases he : e.event_url = ""
      · rw [dedupGo, if_neg (by simp [he]), List.filter_cons, if_pos (by simp [hs]),
          dedupSpec, if_pos he]
        exact ih seen hseen
      · rw [dedupGo, if_pos ⟨he, hs⟩, List.filter_cons, if_pos (by simp [hs]),
          dedupSpec, if_neg he, List.filter_filter]
        have hseen' : "" ∉ e.event_url :: seen := by
          intro hmem
          rcases List.mem_cons.mp hmem with h' | h'
          · exact he h'.symm
          · exact hseen h'
        rw [ih (e.event_url :: seen) hseen']
        refine congrArg (fun l => e :: l) (congrArg dedupSpec (List.filter_congr ?_))
        intro x _
        by_cases h1 : x.event_url = e.event_url <;> by_cases h2 : x.event_url ∈ seen <;>
          simp [h1, h2]

/-- C6: Deduplication — `deduplicate_events` equals the spec-shaped
`dedupSpec`, i.e. it returns exactly one record per non-empty `event_url`
(the first occurrence for that url, in first-seen order) and drops every
record whose `event_url` is empty/missing. -/
theorem deduplicate_matches_spec (l : List Event) : deduplicate_events l = dedupSpec l := by
  have h := dedupGo_eq l [] (by simp)
  rw [deduplicate_events, h]
  congr 1
  simp

/-! ### Claim C7 -/

/-- A DONE record whose `gcal_synced` flag is set, for the C7 exhibit. -/
def c7D : Event := { event_url := "d", status := some "DONE", gcal_synced := some "True" }

/-- C7 (code-bug exhibit): `reset_gcal_synced` checks only the flag, never
`status`, so it clears the `gcal_synced` flag of a `DONE` record too —
against its own docstring ("for all UPCOMING events"), the spec, and the
deletion step `find_and_delete_events`, which does filter on `UPCOMING`. -/
theorem reset_clears_done_records_bug :
    reset_gcal_synced [c7D] = [{ c7D with gcal_synced := some "" }] ∧
    c7D.status = some "DONE" ∧
    c7D.gcal_synced = some "True" ∧
    ({ c7D with gcal_synced := some "" } : Event).gcal_synced ≠ some "True" := by
  exact ⟨by decide, rfl, rfl, by decide⟩

/-! ### Claim C4 -/

/-- An UPCOMING record with `gcal_synced = "True"`, for the C4 exhibit. -/
def c4E : Event :=
  { event_url := "u", date := some "2099-01-01", status := some "UPCOMING",
    gcal_synced := some "True" }

/-- C4 (code-bug exhibit): `FIELDNAMES` has no `gcal_synced` column and
`save_events` drops extra keys (`extrasaction="ignore"`), so a
`save_events` → `load_existing_events` round-trip of a record whose
`gcal_synced` flag is `"True"` yields the record with that flag absent —
the flag does not survive one normal run's persistence, although
`scraper.py`, `google_calendar.py` and `reset_calendar.py` all read it
back from the store. -/
theorem save_load_drops_gcal_synced_bug :
    c4E.gcal_synced = some "True" ∧
    load_existing_events ((save_events [("u", c4E)]).getD []) =
      [("u", { c4E with calendar_exported := some "", gcal_synced := none })] ∧
    ({ c4E with calendar_exported := some "", gcal_synced := none } : Event).gcal_synced = none ∧
    ({ c4E with calendar_exported := some "", gcal_synced := none } : Event).calendar_exported =
      c4E.calendar_exported.getD "" := by
  exact ⟨rfl, by decide, rfl, rfl⟩

/-! ### Claim C10 -/

/-- C10: `save_events` performs no write at all exactly when the record
set is empty (it returns before opening the file, leaving the store
untouched); for any non-empty set it writes. -/
theorem save_empty_no_write (events : List (String × Event)) :
    save_events events = none ↔ events = [] := by
  cases events with
  | nil => simp [save_events]
  | cons p tl => simp [save_events]

/-! ### Claim C8 -/

theorem lexLe_total : ∀ a b : List Nat, lexLe a b = true ∨ lexLe b a = true := by
  intro a
  induction a with
  | nil => intro b; left; rfl
  | cons x xs ih =>
    intro b
    cases b with
    | nil => right; rfl
    | cons y ys =>
      rw [lexLe, lexLe]
      rcases Nat.lt_trichotomy x y with h | h | h
      · left
        rw [if_pos h]
      · subst h
        rcases ih ys with h2 | h2
        · left
          rw [if_neg (Nat.lt_irrefl x), if_pos rfl]
          exact h2
        · right
          rw [if_neg (Nat.lt_irrefl x), if_pos rfl]
          exact h2
      · right
        rw [if_pos h]

theorem lexLe_trans : ∀ a b c : List Nat, lexLe a b = true → lexLe b c = true → lexLe a c = true := by
  intro a
  induction a with
  | nil => intro b c _ _; rfl
  | cons x xs ih =>
    intro b c hab hbc
    cases b with
    | nil => simp [lexLe] at hab
    | cons y ys =>
      cases c with
      | nil => simp [lexLe] at hbc
      | cons z zs =>
        rw [lexLe] at hab hbc ⊢
        by_cases hxy : x < y
        · by_cases hyz : y < z
          · rw [if_pos (Nat.lt_trans hxy hyz)]
          · rw [if_neg hyz] at hbc
            by_cases hyz2 : y = z
            · rw [if_pos (hyz2 ▸ hxy)]
            · rw [if_neg hyz2] at hbc
              exact Bool.noConfusion hbc
        · rw [if_neg hxy] at hab
          by_cases hxy2 : x = y
          · rw [if_pos hxy2] at hab
            subst hxy2
            by_cases hxz : x < z
            · rw [if_pos hxz]
            · rw [if_neg hxz] at hbc ⊢
              by_cases hxz2 : x = z
              · rw [if_pos hxz2] at hbc ⊢
                exact ih ys zs hab hbc
              · rw [if_neg hxz2] at hbc
                exact Bool.noConfusion hbc
          · rw [if_neg hxy2] at hab
            exact Bool.noConfusion hab

instance : IsTotal Event dateRel :=
  ⟨fun a b => lexLe_total (dateSortKey a) (dateSortKey b)⟩

instance : IsTrans Event dateRel :=
  ⟨fun a b c => lexLe_trans (dateSortKey a) (dateSortKey b) (dateSortKey c)⟩

/-- C8 (amended): for a non-empty set, `save_events` writes exactly the
record values sorted stably by the raw date string (Python string order,
with `"9999-99-99"` substituted only when the `date` key is absent),
projected to `FIELDNAMES` rows: the written order is sorted under that
raw-string key and is a permutation of the values.  An empty or
unparseable date string is ordered by its literal characters — an empty
date sorts before every valid date, not after. -/
theorem save_sorted_by_raw_date_amended (events : List (String × Event)) (h : events ≠ []) :
    save_events events =
      some ((List.insertionSort dateRel (events.map Prod.snd)).map writeRow) ∧
    List.Sorted dateRel (List.insertionSort dateRel (events.map Prod.snd)) ∧
    (List.insertionSort dateRel (events.map Prod.snd)).Perm (events.map Prod.snd) := by
  refine ⟨?_, List.sorted_insertionSort dateRel _, List.perm_insertionSort dateRel _⟩
  rw [save_events, if_neg ?_]
  intro hc
  exact h (List.isEmpty_iff.mp hc)

/-- A record with a valid date, for the C8 witness and counterexample. -/
def c8Valid : Event := { event_url := "a", date := some "2024-05-06" }

/-- A record whose `date` is the empty string (unparseable), for C8. -/
def c8Empty : Event := { event_url := "b", date := some "" }

/-- C8 counterexample: with one empty-date record and one valid-date
record, `save_events` writes the unparseable-date record FIRST (raw
string `""` sorts before `"2024-05-06"`), contradicting the claim that
missing/unparseable dates sort after all valid dates. -/
theorem save_order_empty_date_cex :
    save_events [("b", c8Empty), ("a", c8Valid)] =
      some [writeRow c8Empty, writeRow c8Valid] ∧
    parseDate (c8Empty.date.getD "") = none ∧
    (parseDate (c8Valid.date.getD "")).isSome = true := by
  exact ⟨by decide, rfl, rfl⟩

theorem save_sorted_by_raw_date_amended_witness :
    ([("a", c8Valid)] ≠ ([] : List (String × Event))) ∧
    (save_events [("a", c8Valid)] =
      some ((List.insertionSort dateRel ([("a", c8Valid)].map Prod.snd)).map writeRow) ∧
     List.Sorted dateRel (List.insertionSort dateRel ([("a", c8Valid)].map Prod.snd)) ∧
     (List.insertionSort dateRel ([("a", c8Valid)].map Prod.snd)).Perm
       ([("a", c8Valid)].map Prod.snd)) :=
  ⟨by simp, save_sorted_by_raw_date_amended [("a", c8Valid)] (by simp)⟩

/-! ### Claim C9 -/

theorem assignSpec_nil (e : Event) : assignSpec [] e = e := by
  unfold assignSpec
  split
  · rfl
  · split
    · rfl
    · rfl

/-- C9: Territory override scope — `assign_rep_by_territory` acts
pointwise exactly as the claim says (non-online records whose trimmed,
case-folded city matches a case-folded mapping key get `sales_rep`
overwritten with the mapped value; online or blank-city records are
returned entirely unchanged, as are non-matching ones), and records
already present in the persisted set before the merge keep their exact
persisted record after merging the reassigned batch. -/
theorem territory_override_scope (ts : List (String × String)) (evs : List Event)
    (existing : List (String × Event)) :
    assign_rep_by_territory ts evs = evs.map (assignSpec ts) ∧
    ∀ k P, List.lookup k existing = some P →
      List.lookup k (merge_events existing (assign_rep_by_territory ts evs)).1 = some P := by
  constructor
  · rw [assign_rep_by_territory]
    by_cases hts : ts.isEmpty
    · rw [if_pos hts]
      obtain rfl : ts = [] := List.isEmpty_iff.mp hts
      induction evs with
      | nil => rfl
      | cons a tl ih => rw [List.map_cons, assignSpec_nil, ← ih]
    · rw [if_neg hts]
      refine List.map_congr_left ?_
      intro e _
      dsimp only
      unfold assignSpec
      by_cases ho : e.is_online
      · rw [if_pos ho, if_pos ho]
      · rw [if_neg ho, if_neg ho]
        by_cases hc : trimChars e.city.data = []
        · rw [if_pos (List.isEmpty_iff.mpr hc), if_pos hc]
        · rw [if_neg (fun h => hc (List.isEmpty_iff.mp h)), if_neg hc]
          cases hl : territoryLookup ts ((trimChars e.city.data).map lowCode) with
          | none => rfl
          | some rep =>
            dsimp only
            by_cases hr : e.sales_rep = rep
            · rw [if_neg (by simp [hr]), ← hr]
            · rw [if_pos hr]
  · intro k P hP
    exact merge_events_lookup_mono _ existing k P hP

/-- A newly scraped non-online record located in Austin, for the C9 witness. -/
def c9E : Event := { event_url := "e1", city := "Austin", is_online := false, sales_rep := "Rep1" }

/-- An already-persisted record, for the C9 witness. -/
def c9P : Event := { event_url := "u", title := "persisted", sales_rep := "Rep1",
                     status := some "UPCOMING", city := "Austin" }

theorem territory_override_scope_witness :
    assign_rep_by_territory [("austin", "Rep2")] [c9E] =
      [c9E].map (assignSpec [("austin", "Rep2")]) ∧
    (assign_rep_by_territory [("austin", "Rep2")] [c9E]).map (fun e => e.sales_rep) = ["Rep2"] ∧
    List.lookup "u" [("u", c9P)] = some c9P ∧
    List.lookup "u"
        (merge_events [("u", c9P)] (assign_rep_by_territory [("austin", "Rep2")] [c9E])).1 =
      some c9P :=
  ⟨(territory_override_scope [("austin", "Rep2")] [c9E] [("u", c9P)]).1,
   by decide, rfl,
   (territory_override_scope [("austin", "Rep2")] [c9E] [("u", c9P)]).2 "u" c9P rfl⟩

/-! ### Claim C3 -/

/-- The flag flip performed by `mark_calendar_exported` on one record. -/
def setCE (e : Event) : Event := { e with calendar_exported := some "True" }

theorem mark_calendar_exported_eq (urls : List String) :
    ∀ (evs : List (String × Event)),
      mark_calendar_exported evs urls =
        evs.map fun p => if p.1 ∈ urls then (p.1, setCE p.2) else p := by
  induction urls with
  | nil =>
    intro evs
    simp [mark_calendar_exported]
  | cons url rest ih =>
    intro evs
    have hstep : mark_calendar_exported evs (url :: rest) =
        mark_calendar_exported
          (if (evs.lookup url).isSome then
            evs.map fun p => if p.1 = url then (p.1, setCE p.2) else p
          else evs) rest := rfl
    rw [hstep]
    by_cases hs : (evs.lookup url).isSome
    · rw [if_pos hs, ih, List.map_map]
      refine List.map_congr_left ?_
      intro p _
      by_cases h1 : p.1 = url <;> by_cases h2 : p.1 ∈ rest <;>
        simp [Function.comp, h1, h2, setCE]
    · rw [if_neg hs, ih]
      refine List.map_congr_left ?_
      intro p hp
      have hne : p.1 ≠ url :=
        lookup_eq_none_iff.mp (Option.not_isSome_iff_eq_none.mp hs) p hp
      by_cases h2 : p.1 ∈ rest <;> simp [h2, hne]

theorem mark_calendar_exported_eq' (urls : List String) (evs : List (String × Event)) :
    mark_calendar_exported evs urls =
      evs.map fun p => (p.1, if p.1 ∈ urls then setCE p.2 else p.2) := by
  rw [mark_calendar_exported_eq]
  refine List.map_congr_left ?_
  intro p _
  by_cases h : p.1 ∈ urls <;> simp [h]

theorem eligB_setCE (e : Event) : eligB (setCE e) = false := by
  have ht : isTrueStr "True" = true := by decide
  simp [eligB, setCE, ht]

theorem combined_urls_iff {events : List (String × Event)}
    (hnd : (events.map Prod.fst).Nodup)
    (hid : ∀ p ∈ events, p.2.event_url = p.1) {k : String} {e : Event}
    (hmem : (k, e) ∈ events) :
    k ∈ combined_ics_exported_urls events ↔ (eligB e && icsOk e) = true := by
  constructor
  · intro hk
    obtain ⟨e', he', hurl⟩ := List.mem_map.mp hk
    have h2 := List.mem_filter.mp he'
    have h3 := List.mem_filter.mp h2.1
    obtain ⟨p', hp', hsnd⟩ := List.mem_map.mp h3.1
    have hkey : p'.1 = k := by rw [← hid p' hp', hsnd, hurl]
    have hpair : (k, e') ∈ events := by
      have hpp : p' = (k, e') := Prod.ext hkey hsnd
      rw [← hpp]
      exact hp'
    have hee : e = e' := mem_keyed_unique hnd hmem hpair
    rw [hee]
    simp [h3.2, h2.2]
  · intro hh
    rw [Bool.and_eq_true] at hh
    have helig := hh.1
    have hok := hh.2
    refine List.mem_map.mpr ⟨e, ?_, hid (k, e) hmem⟩
    exact List.mem_filter.mpr
      ⟨List.mem_filter.mpr ⟨List.mem_map.mpr ⟨(k, e), hmem, rfl⟩, helig⟩, hok⟩

theorem marked_values_filter :
    ∀ (l : List (String × Event)) (urls : List String),
      (∀ p ∈ l, (p.1 ∈ urls ↔ (eligB p.2 && icsOk p.2) = true)) →
      ((l.map fun p => if p.1 ∈ urls then setCE p.2 else p.2).filter eligB) =
        ((l.map Prod.snd).filter eligB).filter (fun e => !(icsOk e)) := by
  intro l urls
  induction l with
  | nil => intro _; rfl
  | cons p tl ih =>
    intro hprop
    have htl := fun q hq => hprop q (List.mem_cons_of_mem p hq)
    have hp := hprop p (List.mem_cons_self p tl)
    rw [List.map_cons, List.map_cons, List.filter_cons, List.filter_cons]
    by_cases hin : p.1 ∈ urls
    · have hok := hp.mp hin
      rw [Bool.and_eq_true] at hok
      have helig : eligB p.2 = true := hok.1
      have hicso : icsOk p.2 = true := hok.2
      rw [if_pos hin, if_neg (by simp [eligB_setCE]), if_pos (by simp [helig]),
        List.filter_cons, if_neg (by simp [hicso])]
      exact ih htl
    · rw [if_neg hin]
      have hnok : ¬ (eligB p.2 && icsOk p.2) = true := fun hh => hin (hp.mpr hh)
      by_cases helig : eligB p.2 = true
      · have hokF : icsOk p.2 = false := by
          cases hok2 : icsOk p.2
          · rfl
          · exact absurd (by simp [helig, hok2]) hnok
        rw [if_pos (by simp [helig]), if_pos (by simp [helig]),
          List.filter_cons, if_pos (by simp [hokF])]
        rw [ih htl]
      · rw [if_neg (by simp [helig]), if_neg (by simp [helig])]
        exact ih htl

/-- C3 (amended): one run of the combined calendar-file export gate flips
`calendar_exported` to `"True"` exactly for the eligible records whose
date (and time, when present) parses; eligible records with a missing or
unparseable date/time are skipped — never flipped — and are exactly the
records still selected by a second run against the resulting set, which
itself changes nothing (the gate is idempotent after the first run).  In
particular, when every eligible record parses, the second run selects
nothing. -/
theorem export_gate_at_most_once_amended (events : List (String × Event))
    (hnd : (events.map Prod.fst).Nodup)
    (hid : ∀ p ∈ events, p.2.event_url = p.1) :
    (∀ k e, (k, e) ∈ events →
      List.lookup k (export_gate_run events) =
        some (if eligB e && icsOk e then setCE e else e)) ∧
    selectEligible (export_gate_run events) =
      (selectEligible events).filter (fun e => !(icsOk e)) ∧
    export_gate_run (export_gate_run events) = export_gate_run events := by
  have hmark : export_gate_run events =
      events.map fun p =>
        (p.1, if p.1 ∈ combined_ics_exported_urls events then setCE p.2 else p.2) :=
    mark_calendar_exported_eq' _ events
  have hb : selectEligible (export_gate_run events) =
      (selectEligible events).filter (fun e => !(icsOk e)) := by
    rw [hmark]
    simp only [selectEligible, List.map_map]
    have hprop : ∀ p ∈ events,
        (p.1 ∈ combined_ics_exported_urls events ↔ (eligB p.2 && icsOk p.2) = true) := by
      intro p hp
      exact combined_urls_iff hnd hid hp
    have hmv := marked_values_filter events (combined_ics_exported_urls events) hprop
    rw [← hmv]
    exact congrArg (List.filter eligB) (List.map_congr_left fun p _ => rfl)
  refine ⟨?_, hb, ?_⟩
  · intro k e hmem
    rw [hmark, lookup_map_snd, find?_key_of_mem_nodup hmem hnd]
    simp only [Option.map_some']
    congr 1
    by_cases hin : (eligB e && icsOk e) = true
    · rw [if_pos ((combined_urls_iff hnd hid hmem).mpr hin), if_pos hin]
    · rw [if_neg (fun hc => hin ((combined_urls_iff hnd hid hmem).mp hc)), if_neg hin]
  · have hurls2 : combined_ics_exported_urls (export_gate_run events) = [] := by
      simp only [combined_ics_exported_urls]
      rw [hb, List.filter_filter]
      have hnil : (selectEligible events).filter (fun a => icsOk a && !icsOk a) =
          (selectEligible events).filter (fun _ => false) :=
        List.filter_congr (fun x _ => by cases icsOk x <;> rfl)
      rw [hnil, List.filter_false]
      rfl
    show mark_calendar_exported (export_gate_run events)
        (combined_ics_exported_urls (export_gate_run events)) = export_gate_run events
    rw [hurls2]
    rfl

/-- An eligible, parseable-date record, for the C3 witness. -/
def c3W : Event := { event_url := "u", status := some "UPCOMING", date := some "2099-01-01" }

theorem export_gate_at_most_once_amended_witness :
    ([("u", c3W)].map Prod.fst).Nodup ∧
    (∀ p ∈ [("u", c3W)], p.2.event_url = p.1) ∧
    ((∀ k e, (k, e) ∈ [("u", c3W)] →
        List.lookup k (export_gate_run [("u", c3W)]) =
          some (if eligB e && icsOk e then setCE e else e)) ∧
     selectEligible (export_gate_run [("u", c3W)]) =
       (selectEligible [("u", c3W)]).filter (fun e => !(icsOk e)) ∧
     export_gate_run (export_gate_run [("u", c3W)]) = export_gate_run [("u", c3W)]) :=
  ⟨by decide, by decide,
   export_gate_at_most_once_amended [("u", c3W)] (by decide) (by decide)⟩

/-- An eligible record with no date at all, for the C3 counterexample. -/
def c3Bad : Event := { event_url := "u", status := some "UPCOMING" }

/-- C3 counterexample: an eligible record (UPCOMING, flag unset) whose
date is missing is not exported and not flipped by the first gate run —
the set is returned unchanged — and the second run still selects it, so
the gate does not flip each eligible record exactly once and the second
run's eligible set is not empty. -/
theorem export_gate_second_run_cex :
    eligB c3Bad = true ∧
    c3Bad.calendar_exported = none ∧
    export_gate_run [("u", c3Bad)] = [("u", c3Bad)] ∧
    selectEligible (export_gate_run [("u", c3Bad)]) = [c3Bad] :=
  ⟨by decide, rfl, by decide, by decide⟩
